import Mathlib

/-!
Verification of `msa::OrderedMap<keyType, T>` (ofxMSAOrderedMap.h).

The container stores its data twice:
  * `_map`    : `std::map<keyType, std::pair<T, int>>` — key ↦ (value, position);
  * `_vector` : `std::vector<keyType>` — the keys in insertion order.

We model `_map` as an association list with unique keys (the uniqueness that
`std::map` guarantees structurally is carried as an invariant `keysNodup`),
and `_vector` as a `List`.  Since the C++ code never iterates over `_map`,
only its lookup / size / erase behaviour is observable, which the
association list models exactly.  Positions are stored as `Nat` (the C++
code only ever stores non-negative `int`s there: `_vector.size()` and loop
counters); index *arguments* are modelled as `Int`, because the C++ API
takes `int` indices and rejects negative ones.

C++ exceptions are modelled explicitly: accessors return `Except Err α`,
mutators return the final state paired with `Option Err` (`none` = no
throw).  A mutator that throws *after* having mutated (as `push_back` or
`erase` can, via the internal `size()` self-check) returns the mutated
state together with the error, exactly as the exception would propagate in
C++ leaving the object mutated.
-/

set_option linter.unusedVariables false
set_option linter.unusedSectionVars false

namespace Msa

/-- The error taxonomy of the spec (§7). `duplicateKeyError`,
`keyNotFoundError` and `indexOutOfRangeError` are the `invalid_argument`
throws of `push_back`, `validateKey` and `validateIndex`;
`internalInvariantError` is the `runtime_error` thrown by `size()`. -/
inductive Err where
  | duplicateKeyError
  | keyNotFoundError
  | indexOutOfRangeError
  | internalInvariantError
deriving DecidableEq, Repr

variable {K V : Type} [DecidableEq K] [Inhabited V]

/-- Lookup in the association-list model of `std::map`:
`_map.find(key)` / `_map.at(key)`. -/
def mapLookup : List (K × V × Nat) → K → Option (V × Nat)
  | [], _ => none
  | (k', p) :: rest, k => if k' = k then some p else mapLookup rest k

/-- `_map[key] = p`: replace the binding of `key` if present, otherwise add
a new binding.  (`std::map` keeps its entries sorted by key, but the code
never iterates over `_map`, so the position of the new binding in the list
is unobservable; we add it at the end.) -/
def mapInsert : List (K × V × Nat) → K → V × Nat → List (K × V × Nat)
  | [], k, p => [(k, p)]
  | (k', p') :: rest, k, p =>
      if k' = k then (k, p) :: rest else (k', p') :: mapInsert rest k p

/-- `_map.erase(key)`: remove the binding of `key` (the first one in the
list; there is never more than one). -/
def mapErase : List (K × V × Nat) → K → List (K × V × Nat)
  | [], _ => []
  | (k', p') :: rest, k => if k' = k then rest else (k', p') :: mapErase rest k

/-- The state of `msa::OrderedMap<keyType, T>`: the two private members. -/
structure OrderedMap (K V : Type) where
  _map : List (K × V × Nat)
  _vector : List K
deriving DecidableEq

namespace OrderedMap

/-- `OrderedMap::clear()`. -/
def clear (s : OrderedMap K V) : OrderedMap K V := ⟨[], []⟩

/-- `OrderedMap::size()`: returns `_vector.size()`, but first throws
`runtime_error` when the two structures disagree in size. -/
def size (s : OrderedMap K V) : Except Err Nat :=
  if s._map.length = s._vector.length then .ok s._vector.length
  else .error .internalInvariantError

/-- `OrderedMap::exists(key)` (named `existsKey` here; `exists` is not a
usable identifier in Lean): `_map.find(key) != _map.end()`. -/
def existsKey (s : OrderedMap K V) (k : K) : Bool :=
  (mapLookup s._map k).isSome

/-- `validateIndex` succeeds iff `¬(index < 0 || index >= _vector.size())`. -/
def validIndex (s : OrderedMap K V) (i : Int) : Prop :=
  0 ≤ i ∧ i < (s._vector.length : Int)

instance (s : OrderedMap K V) (i : Int) : Decidable (s.validIndex i) :=
  inferInstanceAs (Decidable (_ ∧ _))

/-- `OrderedMap::at(keyType)`: `validateKey`, then `_map.at(key).first`. -/
def atKey (s : OrderedMap K V) (k : K) : Except Err V :=
  match mapLookup s._map k with
  | some (v, _) => .ok v
  | none => .error .keyNotFoundError

/-- `OrderedMap::at(int)`: `validateIndex`, then `at(_vector[index])`. -/
def atIndex (s : OrderedMap K V) (i : Int) : Except Err V :=
  if h : s.validIndex i then
    s.atKey (s._vector.get ⟨i.toNat, by
      rcases h with ⟨h0, h1⟩; omega⟩)
  else .error .indexOutOfRangeError

/-- `OrderedMap::keyFor(int)`: `validateIndex`, then `_vector[index]`. -/
def keyFor (s : OrderedMap K V) (i : Int) : Except Err K :=
  if h : s.validIndex i then
    .ok (s._vector.get ⟨i.toNat, by rcases h with ⟨h0, h1⟩; omega⟩)
  else .error .indexOutOfRangeError

/-- `OrderedMap::indexFor(keyType)`: `validateKey`, then
`_map.at(key).second`. -/
def indexFor (s : OrderedMap K V) (k : K) : Except Err Nat :=
  match mapLookup s._map k with
  | some (_, p) => .ok p
  | none => .error .keyNotFoundError

/-- `OrderedMap::push_back(key, t)`: throw `invalid_argument` if the key
exists; otherwise `_map[key] = make_pair(t, _vector.size())`,
`_vector.push_back(key)`, self-check `size()`, and return `at(key)`. -/
def push_back (s : OrderedMap K V) (k : K) (v : V) :
    OrderedMap K V × Except Err V :=
  if s.existsKey k then (s, .error .duplicateKeyError)
  else
    let s' : OrderedMap K V :=
      ⟨mapInsert s._map k (v, s._vector.length), s._vector ++ [k]⟩
    match s'.size with
    | .error e => (s', .error e)
    | .ok _ =>
      match s'.atKey k with
      | .ok v' => (s', .ok v')
      | .error e => (s', .error e)

/-- `OrderedMap::changeKey(keyType, keyType)`: `validateKey(oldKey)`, then
save `t = _map[oldKey]`, `_map.erase(oldKey)`, `_map[newKey] = t`, and
`_vector.at(t.second) = newKey` (this `vector::at` throws `out_of_range`
when `t.second` is out of bounds, with the map already mutated). -/
def changeKey (s : OrderedMap K V) (oldKey newKey : K) :
    OrderedMap K V × Option Err :=
  match mapLookup s._map oldKey with
  | none => (s, some .keyNotFoundError)
  | some t =>
    let m2 := mapInsert (mapErase s._map oldKey) newKey t
    if t.2 < s._vector.length then
      (⟨m2, s._vector.set t.2 newKey⟩, none)
    else
      (⟨m2, s._vector⟩, some .indexOutOfRangeError)

/-- `OrderedMap::changeKey(int, keyType)`: `validateIndex`, then
`changeKey(keyFor(index), newKey)`. -/
def changeKeyAt (s : OrderedMap K V) (i : Int) (newKey : K) :
    OrderedMap K V × Option Err :=
  if h : s.validIndex i then
    s.changeKey (s._vector.get ⟨i.toNat, by rcases h with ⟨h0, h1⟩; omega⟩)
      newKey
  else (s, some .indexOutOfRangeError)

/-- The loop body of `updateMapIndices`: for each key of the vector, in
order, `_map[key].second = i`.  `std::map::operator[]` default-constructs
the mapped value when the key is absent, so an absent key is inserted with
a default value. -/
def updateFrom : List (K × V × Nat) → List K → Nat → List (K × V × Nat)
  | m, [], _ => m
  | m, k :: ks, i =>
      updateFrom
        (match mapLookup m k with
         | some (v, _) => mapInsert m k (v, i)
         | none => mapInsert m k (default, i)) ks (i + 1)

/-- `OrderedMap::updateMapIndices()`. -/
def updateMapIndices (s : OrderedMap K V) : OrderedMap K V :=
  ⟨updateFrom s._map s._vector 0, s._vector⟩

/-- `OrderedMap::fastErase(int, keyType)`: `_map.erase(key)`,
`_vector.erase(_vector.begin() + index)`, `updateMapIndices()` — no
validity checks (out-of-range `index` is UB in C++; `List.eraseIdx` is then
a no-op here, and `Int.toNat` sends a negative index to `0`; `fastErase`
is only reached with a validated index from `erase`). -/
def fastErase (s : OrderedMap K V) (i : Int) (k : K) : OrderedMap K V :=
  updateMapIndices ⟨mapErase s._map k, s._vector.eraseIdx i.toNat⟩

/-- `OrderedMap::erase(int)`: `validateIndex`, `fastErase(index,
keyFor(index))`, then the `size()` self-check. -/
def eraseAt (s : OrderedMap K V) (i : Int) : OrderedMap K V × Option Err :=
  if h : s.validIndex i then
    let s' := s.fastErase i
      (s._vector.get ⟨i.toNat, by rcases h with ⟨h0, h1⟩; omega⟩)
    match s'.size with
    | .ok _ => (s', none)
    | .error _ => (s', some .internalInvariantError)
  else (s, some .indexOutOfRangeError)

/-- `OrderedMap::erase(keyType)`: `validateKey`, `fastErase(indexFor(key),
key)`, then the `size()` self-check. -/
def eraseKey (s : OrderedMap K V) (k : K) : OrderedMap K V × Option Err :=
  match mapLookup s._map k with
  | none => (s, some .keyNotFoundError)
  | some t =>
    let s' := s.fastErase (t.2 : Int) k
    match s'.size with
    | .ok _ => (s', none)
    | .error _ => (s', some .internalInvariantError)

/-! ## The invariants of the spec (§3) -/

/-- Structural guarantee of `std::map`: keys are unique. -/
abbrev keysNodup (s : OrderedMap K V) : Prop :=
  (s._map.map Prod.fst).Nodup

/-- I1: `order.length == byKey.size()`. -/
abbrev I1 (s : OrderedMap K V) : Prop :=
  s._map.length = s._vector.length

/-- I2: for every index i, `byKey[order[i]].position == i`. -/
abbrev I2 (s : OrderedMap K V) : Prop :=
  ∀ p ∈ s._vector.enum, (mapLookup s._map p.2).map Prod.snd = some p.1

/-- I3: for every entry of the map, `order[byKey[k].position] == k`. -/
abbrev I3 (s : OrderedMap K V) : Prop :=
  ∀ e ∈ s._map, s._vector.get? e.2.2 = some e.1

/-- I4: no duplicate keys in `order`, and the map's keys are exactly the
keys of `order` (the inclusion map ⊆ order already follows from I3). -/
abbrev I4 (s : OrderedMap K V) : Prop :=
  s._vector.Nodup ∧ ∀ k ∈ s._vector, (mapLookup s._map k).isSome

/-- The full invariant bundle. -/
abbrev Inv (s : OrderedMap K V) : Prop :=
  s.keysNodup ∧ s.I1 ∧ s.I2 ∧ s.I3 ∧ s.I4

/-- I2, restated through `getElem?`. -/
lemma I2_iff {s : OrderedMap K V} :
    s.I2 ↔ ∀ i k, s._vector[i]? = some k →
      (mapLookup s._map k).map Prod.snd = some i := by
  constructor
  · intro h i k hk
    exact h (i, k) (List.mk_mem_enum_iff_getElem?.mpr hk)
  · intro h p hp
    exact h p.1 p.2 (List.mk_mem_enum_iff_getElem?.mp hp)

/-- I3, restated through `getElem?`. -/
lemma I3_iff {s : OrderedMap K V} :
    s.I3 ↔ ∀ e ∈ s._map, s._vector[e.2.2]? = some e.1 := by
  unfold OrderedMap.I3
  simp only [List.get?_eq_getElem?]

end OrderedMap

/-! ## Association-list lemmas -/

@[simp] lemma mapLookup_nil (k : K) :
    mapLookup ([] : List (K × V × Nat)) k = none := rfl

@[simp] lemma mapLookup_cons (k' k : K) (p : V × Nat) (m : List (K × V × Nat)) :
    mapLookup ((k', p) :: m) k = if k' = k then some p else mapLookup m k := rfl

lemma mapLookup_mapInsert_self (m : List (K × V × Nat)) (k : K) (p : V × Nat) :
    mapLookup (mapInsert m k p) k = some p := by
  induction m with
  | nil => simp [mapInsert]
  | cons e rest ih =>
    obtain ⟨k', p'⟩ := e
    by_cases h : k' = k <;> simp [mapInsert, h, ih]

lemma mapLookup_mapInsert_ne (m : List (K × V × Nat)) (k k' : K) (p : V × Nat)
    (h : k' ≠ k) : mapLookup (mapInsert m k p) k' = mapLookup m k' := by
  induction m with
  | nil => simp [mapInsert, h.symm]
  | cons e rest ih =>
    obtain ⟨k'', p''⟩ := e
    by_cases h2 : k'' = k
    · subst h2; simp [mapInsert, h.symm]
    · by_cases h3 : k'' = k' <;> simp [mapInsert, h, h2, h3, ih]

lemma mapLookup_eq_none_iff (m : List (K × V × Nat)) (k : K) :
    mapLookup m k = none ↔ k ∉ m.map Prod.fst := by
  induction m with
  | nil => simp
  | cons e rest ih =>
    obtain ⟨k', p'⟩ := e
    by_cases h : k' = k
    · subst h; simp
    · have h' : ¬k = k' := fun hc => h hc.symm
      simp [h, h', ih]

lemma mem_of_mapLookup (m : List (K × V × Nat)) (k : K) (p : V × Nat)
    (h : mapLookup m k = some p) : (k, p) ∈ m := by
  induction m with
  | nil => simp at h
  | cons e rest ih =>
    obtain ⟨k', p'⟩ := e
    by_cases h2 : k' = k
    · subst h2
      simp at h
      simp [h]
    · simp only [mapLookup_cons, if_neg h2] at h
      exact List.mem_cons_of_mem _ (ih h)

lemma mapLookup_isSome_iff (m : List (K × V × Nat)) (k : K) :
    (mapLookup m k).isSome ↔ k ∈ m.map Prod.fst := by
  rcases h : mapLookup m k with _ | p
  · simp [(mapLookup_eq_none_iff m k).mp h]
  · simp only [Option.isSome_some, true_iff]
    exact List.mem_map.mpr ⟨(k, p), mem_of_mapLookup m k p h, rfl⟩

lemma mapInsert_of_lookup_none (m : List (K × V × Nat)) (k : K) (p : V × Nat)
    (h : mapLookup m k = none) : mapInsert m k p = m ++ [(k, p)] := by
  induction m with
  | nil => simp [mapInsert]
  | cons e rest ih =>
    obtain ⟨k', p'⟩ := e
    by_cases h2 : k' = k
    · simp [h2] at h
    · simp only [mapLookup_cons, if_neg h2] at h
      simp [mapInsert, h2, ih h]

lemma keys_mapInsert_of_isSome (m : List (K × V × Nat)) (k : K) (p : V × Nat)
    (h : (mapLookup m k).isSome) :
    (mapInsert m k p).map Prod.fst = m.map Prod.fst := by
  induction m with
  | nil => simp at h
  | cons e rest ih =>
    obtain ⟨k', p'⟩ := e
    by_cases h2 : k' = k
    · simp [mapInsert, h2]
    · simp only [mapLookup_cons, if_neg h2] at h
      simp [mapInsert, h2, ih h]

lemma length_mapInsert_of_isSome (m : List (K × V × Nat)) (k : K) (p : V × Nat)
    (h : (mapLookup m k).isSome) : (mapInsert m k p).length = m.length := by
  have := keys_mapInsert_of_isSome m k p h
  have h1 : ((mapInsert m k p).map Prod.fst).length = (m.map Prod.fst).length := by
    rw [this]
  simpa using h1

lemma mapErase_sublist (m : List (K × V × Nat)) (k : K) :
    List.Sublist (mapErase m k) m := by
  induction m with
  | nil => simp [mapErase]
  | cons e rest ih =>
    obtain ⟨k', p'⟩ := e
    by_cases h : k' = k
    · rw [mapErase, if_pos h]
      exact List.sublist_cons_self _ _
    · rw [mapErase, if_neg h]
      exact List.Sublist.cons₂ _ ih

lemma mapLookup_mapErase_ne (m : List (K × V × Nat)) (k k' : K) (h : k' ≠ k) :
    mapLookup (mapErase m k) k' = mapLookup m k' := by
  induction m with
  | nil => simp [mapErase]
  | cons e rest ih =>
    obtain ⟨k'', p''⟩ := e
    by_cases h2 : k'' = k
    · subst h2; simp [mapErase, h.symm]
    · by_cases h3 : k'' = k' <;> simp [mapErase, h, h2, h3, ih]

lemma mapLookup_mapErase_self (m : List (K × V × Nat)) (k : K)
    (hnd : (m.map Prod.fst).Nodup) : mapLookup (mapErase m k) k = none := by
  induction m with
  | nil => simp [mapErase]
  | cons e rest ih =>
    obtain ⟨k', p'⟩ := e
    simp only [List.map_cons, List.nodup_cons] at hnd
    by_cases h : k' = k
    · subst h
      rw [mapErase, if_pos rfl, mapLookup_eq_none_iff]
      exact hnd.1
    · simp [mapErase, h, ih hnd.2]

lemma length_mapErase_of_isSome (m : List (K × V × Nat)) (k : K)
    (h : (mapLookup m k).isSome) : (mapErase m k).length + 1 = m.length := by
  induction m with
  | nil => simp at h
  | cons e rest ih =>
    obtain ⟨k', p'⟩ := e
    by_cases h2 : k' = k
    · simp [mapErase, h2]
    · simp only [mapLookup_cons, if_neg h2] at h
      simp [mapErase, h2, ih h]

lemma keys_mapErase_of_lookup_none (m : List (K × V × Nat)) (k : K)
    (h : mapLookup m k = none) : mapErase m k = m := by
  induction m with
  | nil => simp [mapErase]
  | cons e rest ih =>
    obtain ⟨k', p'⟩ := e
    by_cases h2 : k' = k
    · simp [h2] at h
    · simp only [mapLookup_cons, if_neg h2] at h
      simp [mapErase, h2, ih h]

lemma mapLookup_of_mem (m : List (K × V × Nat)) (e : K × V × Nat)
    (hnd : (m.map Prod.fst).Nodup) (hm : e ∈ m) :
    mapLookup m e.1 = some e.2 := by
  induction m with
  | nil => simp at hm
  | cons e' rest ih =>
    obtain ⟨k', p'⟩ := e'
    simp only [List.map_cons, List.nodup_cons] at hnd
    rcases List.mem_cons.mp hm with h | h
    · subst h; simp
    · have hne : k' ≠ e.1 := by
        intro hc
        exact hnd.1 (hc ▸ (List.mem_map.mpr ⟨e, h, rfl⟩))
      simp [hne, ih hnd.2 h]

lemma mapLookup_mapInsert_isSome (m : List (K × V × Nat)) (k k' : K)
    (p : V × Nat) (h : (mapLookup m k').isSome) :
    (mapLookup (mapInsert m k p) k').isSome := by
  by_cases h2 : k' = k
  · subst h2; simp [mapLookup_mapInsert_self]
  · rw [mapLookup_mapInsert_ne m k k' p h2]; exact h

/-! ## Lemmas about the `updateMapIndices` loop -/

namespace OrderedMap

lemma updateFrom_lookup_not_mem (l : List K) (m : List (K × V × Nat))
    (i0 : Nat) (k : K) (h : k ∉ l) :
    mapLookup (updateFrom m l i0) k = mapLookup m k := by
  induction l generalizing m i0 with
  | nil => rfl
  | cons k1 ks ih =>
    simp only [List.mem_cons, not_or] at h
    rcases hm : mapLookup m k1 with _ | ⟨v, pos⟩ <;>
      simp only [updateFrom, hm] <;>
      rw [ih _ _ h.2, mapLookup_mapInsert_ne _ _ _ _ h.1]

lemma updateFrom_lookup_isSome (l : List K) (m : List (K × V × Nat))
    (i0 : Nat) (k : K) (h : (mapLookup m k).isSome) :
    (mapLookup (updateFrom m l i0) k).isSome := by
  induction l generalizing m i0 with
  | nil => exact h
  | cons k1 ks ih =>
    rcases hm : mapLookup m k1 with _ | ⟨v, pos⟩ <;>
      simp only [updateFrom, hm] <;>
      exact ih _ _ (mapLookup_mapInsert_isSome _ _ _ _ h)

lemma updateFrom_keys (l : List K) (m : List (K × V × Nat)) (i0 : Nat)
    (h : ∀ k ∈ l, (mapLookup m k).isSome) :
    (updateFrom m l i0).map Prod.fst = m.map Prod.fst := by
  induction l generalizing m i0 with
  | nil => rfl
  | cons k1 ks ih =>
    have h1 := h k1 (List.mem_cons_self _ _)
    rcases hm : mapLookup m k1 with _ | ⟨v, pos⟩
    · rw [hm] at h1; simp at h1
    · simp only [updateFrom, hm]
      rw [ih _ _ fun k hk =>
        mapLookup_mapInsert_isSome _ _ _ _ (h k (List.mem_cons_of_mem _ hk))]
      exact keys_mapInsert_of_isSome m k1 (v, i0) (by rw [hm]; rfl)

lemma updateFrom_length (l : List K) (m : List (K × V × Nat)) (i0 : Nat)
    (h : ∀ k ∈ l, (mapLookup m k).isSome) :
    (updateFrom m l i0).length = m.length := by
  have h1 : ((updateFrom m l i0).map Prod.fst).length = (m.map Prod.fst).length := by
    rw [updateFrom_keys l m i0 h]
  simpa using h1

lemma updateFrom_lookup_get (l : List K) (hnd : l.Nodup) :
    ∀ (m : List (K × V × Nat)) (i0 j : Nat) (hj : j < l.length) (v : V)
      (pos : Nat), mapLookup m (l.get ⟨j, hj⟩) = some (v, pos) →
      mapLookup (updateFrom m l i0) (l.get ⟨j, hj⟩) = some (v, i0 + j) := by
  induction l with
  | nil =>
    intro m i0 j hj
    simp at hj
  | cons k1 ks ih =>
    intro m i0 j hj v pos hlk
    have hnd' := List.nodup_cons.mp hnd
    match j with
    | 0 =>
      simp only [List.get] at hlk ⊢
      simp only [updateFrom, hlk]
      rw [updateFrom_lookup_not_mem ks _ _ k1 hnd'.1,
        mapLookup_mapInsert_self]
      simp
    | Nat.succ j' =>
      have hget : (k1 :: ks).get ⟨j' + 1, hj⟩ =
          ks.get ⟨j', Nat.lt_of_succ_lt_succ hj⟩ := rfl
      rw [hget] at hlk ⊢
      have hne : ks.get ⟨j', Nat.lt_of_succ_lt_succ hj⟩ ≠ k1 := by
        intro hc
        exact hnd'.1 (hc ▸ List.get_mem ks j' _)
      have harith : i0 + (j' + 1) = (i0 + 1) + j' := by omega
      rcases hm : mapLookup m k1 with _ | ⟨v1, pos1⟩
      · simp only [updateFrom, hm]
        rw [harith]
        exact ih hnd'.2 _ (i0 + 1) j' _ v pos
          (by rw [mapLookup_mapInsert_ne _ _ _ _ hne]; exact hlk)
      · simp only [updateFrom, hm]
        rw [harith]
        exact ih hnd'.2 _ (i0 + 1) j' _ v pos
          (by rw [mapLookup_mapInsert_ne _ _ _ _ hne]; exact hlk)

end OrderedMap

/-! ## Generic helpers -/

lemma lt_of_getElem?_some {α : Type} {l : List α} {i : Nat} {a : α}
    (h : l[i]? = some a) : i < l.length := by
  obtain ⟨h1, _⟩ := List.getElem?_eq_some_iff.mp h
  exact h1

lemma mem_of_getElem?_some {α : Type} {l : List α} {i : Nat} {a : α}
    (h : l[i]? = some a) : a ∈ l := by
  obtain ⟨h1, h2⟩ := List.getElem?_eq_some_iff.mp h
  exact h2 ▸ List.getElem_mem h1

lemma mapLookup_append_of_isSome (m1 m2 : List (K × V × Nat)) (k : K)
    (h : (mapLookup m1 k).isSome) :
    mapLookup (m1 ++ m2) k = mapLookup m1 k := by
  induction m1 with
  | nil => simp at h
  | cons e rest ih =>
    obtain ⟨k', p'⟩ := e
    by_cases h2 : k' = k
    · simp [h2]
    · simp only [mapLookup_cons, if_neg h2] at h
      simp [h2, ih h]

lemma mapLookup_append_of_none (m1 m2 : List (K × V × Nat)) (k : K)
    (h : mapLookup m1 k = none) :
    mapLookup (m1 ++ m2) k = mapLookup m2 k := by
  induction m1 with
  | nil => simp
  | cons e rest ih =>
    obtain ⟨k', p'⟩ := e
    by_cases h2 : k' = k
    · simp [h2] at h
    · simp only [mapLookup_cons, if_neg h2] at h
      simp [h2, ih h]

/-! ## push_back -/

namespace OrderedMap

lemma push_back_of_exists {s : OrderedMap K V} {k : K} (v : V)
    (h : s.existsKey k = true) :
    s.push_back k v = (s, .error .duplicateKeyError) := by
  simp [push_back, h]

lemma push_back_fresh {s : OrderedMap K V} {k : K} (v : V)
    (hI1 : s.I1) (h : s.existsKey k = false) :
    s.push_back k v =
      (⟨s._map ++ [(k, v, s._vector.length)], s._vector ++ [k]⟩, .ok v) := by
  have hnone : mapLookup s._map k = none := by
    simpa [existsKey] using h
  have hins := mapInsert_of_lookup_none s._map k (v, s._vector.length) hnone
  have hlk : mapLookup (s._map ++ [(k, v, s._vector.length)]) k =
      some (v, s._vector.length) := by
    rw [mapLookup_append_of_none _ _ _ hnone]
    simp
  unfold push_back
  simp only [h, Bool.false_eq_true, if_false, hins, size, atKey, hlk,
    List.length_append, List.length_cons, List.length_nil, hI1]
  simp

lemma push_back_Inv {s : OrderedMap K V} {k : K} (v : V)
    (hInv : s.Inv) (h : s.existsKey k = false) :
    ((s.push_back k v).1).Inv := by
  obtain ⟨hnd, hI1, hI2, hI3, hI4⟩ := hInv
  rw [push_back_fresh v hI1 h]
  have hnone : mapLookup s._map k = none := by simpa [existsKey] using h
  have hknotin : k ∉ s._map.map Prod.fst := (mapLookup_eq_none_iff _ _).mp hnone
  have hkvec : k ∉ s._vector := by
    intro hmem
    have := hI4.2 k hmem
    rw [hnone] at this
    simp at this
  have hI2' := I2_iff.mp hI2
  have hI3' := I3_iff.mp hI3
  refine ⟨?_, ?_, ?_, ?_, ?_, ?_⟩
  · -- keysNodup
    show ((s._map ++ [(k, v, s._vector.length)]).map Prod.fst).Nodup
    rw [List.map_append, List.nodup_append]
    refine ⟨hnd, by simp, ?_⟩
    intro a ha hb
    simp only [List.map_cons, List.map_nil, List.mem_singleton] at hb
    exact hknotin (hb ▸ ha)
  · -- I1
    show (s._map ++ _).length = (s._vector ++ _).length
    simp [hI1]
  · -- I2
    rw [I2_iff]
    intro i k' hk'
    show (mapLookup (s._map ++ [(k, v, s._vector.length)]) k').map Prod.snd =
      some i
    rcases lt_trichotomy i s._vector.length with hi | hi | hi
    · rw [List.getElem?_append, if_pos hi] at hk'
      have hmem : k' ∈ s._vector := mem_of_getElem?_some hk'
      have hsome := hI4.2 k' hmem
      rw [mapLookup_append_of_isSome _ _ _ hsome]
      exact hI2' i k' hk'
    · subst hi
      rw [List.getElem?_concat_length] at hk'
      injection hk' with hk'
      subst hk'
      rw [mapLookup_append_of_none _ _ _ hnone]
      simp
    · rw [List.getElem?_eq_none (by simp; omega)] at hk'
      simp at hk'
  · -- I3
    rw [I3_iff]
    intro e he
    show (s._vector ++ [k])[e.2.2]? = some e.1
    rcases List.mem_append.mp he with he | he
    · have h3 := hI3' e he
      have hlt := lt_of_getElem?_some h3
      rw [List.getElem?_append, if_pos hlt]
      exact h3
    · simp only [List.mem_singleton] at he
      subst he
      exact List.getElem?_concat_length _ _
  · -- I4 nodup
    show (s._vector ++ [k]).Nodup
    rw [List.nodup_append]
    refine ⟨hI4.1, by simp, ?_⟩
    intro a ha hb
    simp only [List.mem_singleton] at hb
    exact hkvec (hb ▸ ha)
  · -- I4 membership
    intro k' hk'
    show (mapLookup (s._map ++ [(k, v, s._vector.length)]) k').isSome
    rcases List.mem_append.mp hk' with hmem | hmem
    · rw [mapLookup_append_of_isSome _ _ _ (hI4.2 k' hmem)]
      exact hI4.2 k' hmem
    · simp only [List.mem_singleton] at hmem
      subst hmem
      rw [mapLookup_append_of_none _ _ _ hnone]
      simp

end OrderedMap

/-! ## erase -/

lemma not_mem_eraseIdx_self {l : List K} (hnd : l.Nodup) {p : Nat}
    (hp : p < l.length) : l.get ⟨p, hp⟩ ∉ l.eraseIdx p := by
  intro hmem
  obtain ⟨j, hj⟩ := List.mem_iff_getElem?.mp hmem
  have hp? : l[p]? = some (l.get ⟨p, hp⟩) := by
    rw [List.getElem?_eq_getElem hp, List.get_eq_getElem]
  by_cases hjp : j < p
  · rw [List.getElem?_eraseIdx_of_lt _ _ _ hjp] at hj
    have := List.getElem?_inj (lt_of_getElem?_some hj) hnd (hj.trans hp?.symm)
    omega
  · rw [List.getElem?_eraseIdx_of_ge _ _ _ (Nat.le_of_not_lt hjp)] at hj
    have := List.getElem?_inj (lt_of_getElem?_some hj) hnd (hj.trans hp?.symm)
    omega

lemma mem_eraseIdx_of_mem_ne {l : List K} {p : Nat} (hp : p < l.length)
    {k' : K} (hmem : k' ∈ l) (hne : k' ≠ l.get ⟨p, hp⟩) :
    k' ∈ l.eraseIdx p := by
  obtain ⟨j, hj⟩ := List.mem_iff_getElem?.mp hmem
  have hjp : j ≠ p := by
    intro hc
    subst hc
    rw [List.getElem?_eq_getElem hp] at hj
    injection hj with hj
    exact hne (by rw [List.get_eq_getElem]; exact hj.symm)
  by_cases hlt : j < p
  · exact mem_of_getElem?_some
      ((List.getElem?_eraseIdx_of_lt l p j hlt).trans hj)
  · have hge : p ≤ j - 1 := by omega
    have hj1 : j - 1 + 1 = j := by omega
    exact mem_of_getElem?_some
      ((List.getElem?_eraseIdx_of_ge l p (j - 1) hge).trans (hj1 ▸ hj))

namespace OrderedMap

lemma updateFrom_lookup_getElem? {l : List K} (hnd : l.Nodup)
    {m : List (K × V × Nat)} {i0 j : Nat} {k' : K} {v : V} {pos : Nat}
    (hj : l[j]? = some k') (hlk : mapLookup m k' = some (v, pos)) :
    mapLookup (updateFrom m l i0) k' = some (v, i0 + j) := by
  obtain ⟨hlt, hget⟩ := List.getElem?_eq_some_iff.mp hj
  have hgk : l.get ⟨j, hlt⟩ = k' := by rw [List.get_eq_getElem]; exact hget
  rw [← hgk] at hlk ⊢
  exact updateFrom_lookup_get l hnd m i0 j hlt v pos hlk

/-- The combined effect of `fastErase(p, _vector[p])` on a state satisfying
the invariants: the vector loses position `p`, the invariants are restored
by `updateMapIndices`, the erased key is gone from the map, and every other
key keeps its value while its position is renumbered from `q` to `q` (when
`q < p`) or `q - 1` (when `q > p`). -/
lemma fastErase_valid {s : OrderedMap K V} (hInv : s.Inv) {p : Nat}
    (hp : p < s._vector.length) :
    (s.fastErase (p : Int) (s._vector.get ⟨p, hp⟩)).Inv ∧
    (s.fastErase (p : Int) (s._vector.get ⟨p, hp⟩))._vector =
      s._vector.eraseIdx p ∧
    (s.fastErase (p : Int) (s._vector.get ⟨p, hp⟩))._map.length + 1 =
      s._map.length ∧
    mapLookup (s.fastErase (p : Int) (s._vector.get ⟨p, hp⟩))._map
      (s._vector.get ⟨p, hp⟩) = none ∧
    ∀ q (hq : q < s._vector.length), q ≠ p →
      mapLookup (s.fastErase (p : Int) (s._vector.get ⟨p, hp⟩))._map
        (s._vector.get ⟨q, hq⟩) =
      (mapLookup s._map (s._vector.get ⟨q, hq⟩)).map
        (fun vp => (vp.1, if q < p then q else q - 1)) := by
  obtain ⟨hndm, hI1, hI2, hI3, hndv, hI4⟩ := hInv
  have hI2' := I2_iff.mp hI2
  have hI3' := I3_iff.mp hI3
  have hfe : s.fastErase (p : Int) (s._vector.get ⟨p, hp⟩) =
      ⟨updateFrom (mapErase s._map (s._vector.get ⟨p, hp⟩))
        (s._vector.eraseIdx p) 0, s._vector.eraseIdx p⟩ := rfl
  rw [hfe]
  have hkp? : s._vector[p]? = some (s._vector.get ⟨p, hp⟩) := by
    rw [List.getElem?_eq_getElem hp, List.get_eq_getElem]
  have hlkk : ∃ vk, mapLookup s._map (s._vector.get ⟨p, hp⟩) =
      some (vk, p) := by
    have := hI2' p _ hkp?
    rcases hl : mapLookup s._map (s._vector.get ⟨p, hp⟩) with _ | ⟨vk, pos⟩
    · rw [hl] at this; simp at this
    · rw [hl] at this
      simp at this
      exact ⟨vk, by rw [this]⟩
  have hknotin : s._vector.get ⟨p, hp⟩ ∉ s._vector.eraseIdx p :=
    not_mem_eraseIdx_self hndv hp
  have hndv' : (s._vector.eraseIdx p).Nodup :=
    List.Nodup.sublist (List.eraseIdx_sublist _ _) hndv
  have hmem' : ∀ k' ∈ s._vector.eraseIdx p,
      k' ∈ s._vector ∧ k' ≠ s._vector.get ⟨p, hp⟩ := by
    intro k' hk'
    refine ⟨(List.eraseIdx_sublist _ _).subset hk', ?_⟩
    intro hc
    exact hknotin (hc ▸ hk')
  have hm1lk : ∀ k' ∈ s._vector.eraseIdx p,
      mapLookup (mapErase s._map (s._vector.get ⟨p, hp⟩)) k' =
        mapLookup s._map k' := by
    intro k' hk'
    exact mapLookup_mapErase_ne _ _ _ (hmem' k' hk').2
  have hpresent : ∀ k' ∈ s._vector.eraseIdx p,
      (mapLookup (mapErase s._map (s._vector.get ⟨p, hp⟩)) k').isSome := by
    intro k' hk'
    rw [hm1lk k' hk']
    exact hI4 k' (hmem' k' hk').1
  have hlkknone : mapLookup (mapErase s._map (s._vector.get ⟨p, hp⟩))
      (s._vector.get ⟨p, hp⟩) = none :=
    mapLookup_mapErase_self _ _ hndm
  -- the central characterization of the rebuilt map
  have hchar : ∀ j k', (s._vector.eraseIdx p)[j]? = some k' →
      ∃ v pos, mapLookup s._map k' = some (v, pos) ∧
        mapLookup (updateFrom (mapErase s._map (s._vector.get ⟨p, hp⟩))
          (s._vector.eraseIdx p) 0) k' = some (v, j) := by
    intro j k' hj
    have hk'mem := mem_of_getElem?_some hj
    have hsome := hI4 k' (hmem' k' hk'mem).1
    rcases hl : mapLookup s._map k' with _ | ⟨v, pos⟩
    · rw [hl] at hsome; simp at hsome
    · refine ⟨v, pos, rfl, ?_⟩
      have h0j : (0 : Nat) + j = j := by omega
      rw [← h0j]
      exact updateFrom_lookup_getElem? hndv' hj
        ((hm1lk k' hk'mem).trans hl)
  have hkeys : (updateFrom (mapErase s._map (s._vector.get ⟨p, hp⟩))
        (s._vector.eraseIdx p) 0).map Prod.fst =
      (mapErase s._map (s._vector.get ⟨p, hp⟩)).map Prod.fst :=
    updateFrom_keys _ _ _ hpresent
  have hndm1 : ((mapErase s._map (s._vector.get ⟨p, hp⟩)).map
      Prod.fst).Nodup :=
    List.Nodup.sublist (List.Sublist.map _ (mapErase_sublist _ _)) hndm
  have hlen : (updateFrom (mapErase s._map (s._vector.get ⟨p, hp⟩))
        (s._vector.eraseIdx p) 0).length + 1 = s._map.length := by
    rw [updateFrom_length _ _ _ hpresent]
    exact length_mapErase_of_isSome _ _ (by
      obtain ⟨vk, hvk⟩ := hlkk
      rw [hvk]; rfl)
  have hlknone : mapLookup (updateFrom
      (mapErase s._map (s._vector.get ⟨p, hp⟩))
      (s._vector.eraseIdx p) 0) (s._vector.get ⟨p, hp⟩) = none := by
    rw [updateFrom_lookup_not_mem _ _ _ _ hknotin]
    exact hlkknone
  refine ⟨⟨?_, ?_, ?_, ?_, ?_, ?_⟩, rfl, hlen, hlknone, ?_⟩
  · -- keysNodup
    show ((updateFrom _ _ _).map Prod.fst).Nodup
    rw [hkeys]
    exact hndm1
  · -- I1
    show (updateFrom _ _ _).length = (s._vector.eraseIdx p).length
    have hv := List.length_eraseIdx_add_one hp
    have := hI1
    omega
  · -- I2
    rw [I2_iff]
    intro i k' hk'
    obtain ⟨v, pos, _, hm'⟩ := hchar i k' hk'
    rw [hm']
    rfl
  · -- I3
    rw [I3_iff]
    intro e he
    have hnd' : ((updateFrom (mapErase s._map (s._vector.get ⟨p, hp⟩))
        (s._vector.eraseIdx p) 0).map Prod.fst).Nodup := by
      rw [hkeys]; exact hndm1
    have hlk_e := mapLookup_of_mem _ e hnd' he
    -- e.1 is a key of the rebuilt map, hence a key of the erased map
    have hkey_mem : e.1 ∈ (mapErase s._map (s._vector.get ⟨p, hp⟩)).map
        Prod.fst := by
      rw [← hkeys]
      exact List.mem_map.mpr ⟨e, he, rfl⟩
    have hsome1 : (mapLookup (mapErase s._map (s._vector.get ⟨p, hp⟩))
        e.1).isSome := (mapLookup_isSome_iff _ _).mpr hkey_mem
    have hne : e.1 ≠ s._vector.get ⟨p, hp⟩ := by
      intro hc
      rw [hc, hlkknone] at hsome1
      simp at hsome1
    have hlk_m : mapLookup s._map e.1 =
        mapLookup (mapErase s._map (s._vector.get ⟨p, hp⟩)) e.1 :=
      (mapLookup_mapErase_ne _ _ _ hne).symm
    rcases hl : mapLookup s._map e.1 with _ | ⟨v, pos⟩
    · rw [hl] at hlk_m; rw [← hlk_m] at hsome1; simp at hsome1
    · have hmem_m : (e.1, v, pos) ∈ s._map := mem_of_mapLookup _ _ _ hl
      have hvec : s._vector[pos]? = some e.1 := hI3' _ hmem_m
      have he1vec : e.1 ∈ s._vector := mem_of_getElem?_some hvec
      have he1vec' : e.1 ∈ s._vector.eraseIdx p :=
        mem_eraseIdx_of_mem_ne hp he1vec hne
      obtain ⟨j, hj⟩ := List.mem_iff_getElem?.mp he1vec'
      obtain ⟨v', pos', hv', hm'⟩ := hchar j e.1 hj
      rw [hm'] at hlk_e
      injection hlk_e with hlk_e
      rw [← hlk_e]
      exact hj
  · -- I4: Nodup
    exact hndv'
  · -- I4: membership
    intro k' hk'
    obtain ⟨j, hj⟩ := List.mem_iff_getElem?.mp hk'
    obtain ⟨v, pos, _, hm'⟩ := hchar j k' hj
    rw [hm']
    rfl
  · -- renumbering of the surviving entries
    intro q hq hqp
    have hkq? : s._vector[q]? = some (s._vector.get ⟨q, hq⟩) := by
      rw [List.getElem?_eq_getElem hq, List.get_eq_getElem]
    have hkqne : s._vector.get ⟨q, hq⟩ ≠ s._vector.get ⟨p, hp⟩ := by
      intro hc
      have := (List.Nodup.get_inj_iff hndv).mp hc
      simp only [Fin.mk.injEq] at this
      exact hqp this
    have hsome := hI4 _ (List.get_mem s._vector q hq)
    rcases hl : mapLookup s._map (s._vector.get ⟨q, hq⟩) with _ | ⟨v, pos⟩
    · rw [hl] at hsome; simp at hsome
    · have hpos : pos = q := by
        have := hI2' q _ hkq?
        rw [hl] at this
        simp at this
        exact this
      rw [hpos] at hl
      rw [hpos]
      by_cases hlt : q < p
      · have hj : (s._vector.eraseIdx p)[q]? =
            some (s._vector.get ⟨q, hq⟩) :=
          (List.getElem?_eraseIdx_of_lt _ _ _ hlt).trans hkq?
        rw [updateFrom_lookup_getElem? hndv' hj
          ((mapLookup_mapErase_ne _ _ _ hkqne).trans hl)]
        simp [hlt]
      · have hgt : p < q := by omega
        have hq1 : q - 1 + 1 = q := by omega
        have hj : (s._vector.eraseIdx p)[q - 1]? =
            some (s._vector.get ⟨q, hq⟩) := by
          rw [List.getElem?_eraseIdx_of_ge _ _ _ (by omega), hq1]
          exact hkq?
        rw [updateFrom_lookup_getElem? hndv' hj
          ((mapLookup_mapErase_ne _ _ _ hkqne).trans hl)]
        simp [hlt]

lemma size_eq_ok_of_I1 {s : OrderedMap K V} (h : s.I1) :
    s.size = .ok s._vector.length := by
  unfold size
  rw [if_pos h]

/-- Under I2 + I4, the key at position `p` is mapped to position `p` (and
some value). -/
lemma lookup_get_pos {s : OrderedMap K V} (hInv : s.Inv) {p : Nat}
    (hp : p < s._vector.length) :
    ∃ vk, mapLookup s._map (s._vector.get ⟨p, hp⟩) = some (vk, p) := by
  obtain ⟨hndm, hI1, hI2, hI3, hndv, hI4⟩ := hInv
  have hkp? : s._vector[p]? = some (s._vector.get ⟨p, hp⟩) := by
    rw [List.getElem?_eq_getElem hp, List.get_eq_getElem]
  have := I2_iff.mp hI2 p _ hkp?
  rcases hl : mapLookup s._map (s._vector.get ⟨p, hp⟩) with _ | ⟨vk, pos⟩
  · rw [hl] at this; simp at this
  · rw [hl] at this
    simp at this
    exact ⟨vk, by rw [this]⟩

lemma eraseAt_valid {s : OrderedMap K V} (hInv : s.Inv) {p : Nat}
    (hp : p < s._vector.length) :
    s.eraseAt (p : Int) =
      (s.fastErase (p : Int) (s._vector.get ⟨p, hp⟩), none) := by
  have hvalid : s.validIndex (p : Int) := ⟨by omega, by exact_mod_cast hp⟩
  have hI1' : (s.fastErase (p : Int) (s._vector.get ⟨p, hp⟩)).I1 :=
    ((fastErase_valid hInv hp).1).2.1
  unfold eraseAt
  rw [dif_pos hvalid]
  dsimp only
  split
  · rfl
  · rename_i e heq
    exfalso
    have heq' : (s.fastErase (p : Int) (s._vector.get ⟨p, hp⟩)).size =
        .error e := heq
    rw [size_eq_ok_of_I1 hI1'] at heq'
    cases heq'

lemma eraseKey_valid {s : OrderedMap K V} (hInv : s.Inv) {p : Nat}
    (hp : p < s._vector.length) :
    s.eraseKey (s._vector.get ⟨p, hp⟩) =
      (s.fastErase (p : Int) (s._vector.get ⟨p, hp⟩), none) := by
  obtain ⟨vk, hvk⟩ := lookup_get_pos hInv hp
  have hI1' : (s.fastErase (p : Int) (s._vector.get ⟨p, hp⟩)).I1 :=
    ((fastErase_valid hInv hp).1).2.1
  unfold eraseKey
  rw [hvk]
  simp only [size_eq_ok_of_I1 hI1']

/-! ## changeKey -/

lemma changeKey_not_exists {s : OrderedMap K V} {oldKey : K} (newKey : K)
    (h : s.existsKey oldKey = false) :
    s.changeKey oldKey newKey = (s, some .keyNotFoundError) := by
  have hnone : mapLookup s._map oldKey = none := by simpa [existsKey] using h
  unfold changeKey
  rw [hnone]

lemma existsKey_lookup {s : OrderedMap K V} {k : K}
    (h : s.existsKey k = true) : ∃ v p, mapLookup s._map k = some (v, p) := by
  unfold existsKey at h
  rcases hl : mapLookup s._map k with _ | ⟨v, p⟩
  · rw [hl] at h; simp at h
  · exact ⟨v, p, rfl⟩

lemma pos_lt_of_lookup {s : OrderedMap K V} (hI3 : s.I3) {k : K} {v : V}
    {p : Nat} (h : mapLookup s._map k = some (v, p)) :
    s._vector[p]? = some k ∧ p < s._vector.length := by
  have hmem := mem_of_mapLookup _ _ _ h
  have := (I3_iff.mp hI3) _ hmem
  exact ⟨this, lt_of_getElem?_some this⟩

lemma changeKey_present {s : OrderedMap K V} {oldKey : K} {v : V} {p : Nat}
    (hvk : mapLookup s._map oldKey = some (v, p))
    (hp : p < s._vector.length) (newKey : K) :
    s.changeKey oldKey newKey =
      (⟨mapInsert (mapErase s._map oldKey) newKey (v, p),
        s._vector.set p newKey⟩, none) := by
  unfold changeKey
  rw [hvk]
  dsimp only
  rw [if_pos hp]

/-- Transfer of the invariants between states with extensionally equal maps
and equal vectors. -/
lemma Inv_of_lookup_eq {s s' : OrderedMap K V}
    (hlk : ∀ k, mapLookup s'._map k = mapLookup s._map k)
    (hnd : s'.keysNodup) (hlen : s'._map.length = s._map.length)
    (hvec : s'._vector = s._vector) (hInv : s.Inv) : s'.Inv := by
  obtain ⟨hndm, hI1, hI2, hI3, hndv, hI4⟩ := hInv
  refine ⟨hnd, ?_, ?_, ?_, ?_, ?_⟩
  · show s'._map.length = s'._vector.length
    rw [hlen, hvec]
    exact hI1
  · rw [I2_iff]
    intro i k hk
    rw [hvec] at hk
    rw [hlk]
    exact I2_iff.mp hI2 i k hk
  · rw [I3_iff]
    intro e he
    have hlk_e := mapLookup_of_mem _ e hnd he
    rw [hlk] at hlk_e
    have hmem := mem_of_mapLookup _ _ _ hlk_e
    rw [hvec]
    exact I3_iff.mp hI3 _ hmem
  · rw [hvec]; exact hndv
  · intro k hk
    rw [hvec] at hk
    rw [hlk]
    exact hI4 k hk

lemma changeKey_Inv {s : OrderedMap K V} (hInv : s.Inv) {oldKey newKey : K}
    (hold : s.existsKey oldKey = true)
    (hnew : newKey = oldKey ∨ s.existsKey newKey = false) :
    (s.changeKey oldKey newKey).2 = none ∧
    ((s.changeKey oldKey newKey).1).Inv := by
  obtain ⟨v, p, hvk⟩ := existsKey_lookup hold
  obtain ⟨hvecp, hp⟩ := pos_lt_of_lookup hInv.2.2.2.1 hvk
  obtain ⟨hndm, hI1, hI2, hI3, hndv, hI4⟩ := hInv
  rw [changeKey_present hvk hp newKey]
  refine ⟨rfl, ?_⟩
  have hsome_old : (mapLookup s._map oldKey).isSome := by rw [hvk]; rfl
  have herase_old : mapLookup (mapErase s._map oldKey) oldKey = none :=
    mapLookup_mapErase_self _ _ hndm
  have hnd_erase : ((mapErase s._map oldKey).map Prod.fst).Nodup :=
    List.Nodup.sublist (List.Sublist.map _ (mapErase_sublist _ _)) hndm
  have hlen_erase := length_mapErase_of_isSome _ _ hsome_old
  rcases hnew with heq | hfresh
  · -- newKey = oldKey: the entry is erased and re-registered unchanged
    subst heq
    have hins := mapInsert_of_lookup_none (mapErase s._map newKey) newKey
      (v, p) herase_old
    have hvecset : s._vector.set p newKey = s._vector := by
      apply List.ext_getElem?
      intro n
      rw [List.getElem?_set]
      by_cases hpn : p = n
      · subst hpn
        rw [if_pos rfl, if_pos hp]
        exact hvecp.symm
      · rw [if_neg hpn]
    refine Inv_of_lookup_eq ?_ ?_ ?_ hvecset ⟨hndm, hI1, hI2, hI3, hndv, hI4⟩
    · intro k'
      by_cases hk' : k' = newKey
      · subst hk'
        rw [mapLookup_mapInsert_self, hvk]
      · rw [mapLookup_mapInsert_ne _ _ _ _ hk',
          mapLookup_mapErase_ne _ _ _ hk']
    · show ((mapInsert (mapErase s._map newKey) newKey (v, p)).map
        Prod.fst).Nodup
      rw [hins, List.map_append, List.nodup_append]
      refine ⟨hnd_erase, by simp, ?_⟩
      intro a ha hb
      simp only [List.map_cons, List.map_nil, List.mem_singleton] at hb
      subst hb
      exact ((mapLookup_eq_none_iff _ _).mp herase_old) ha
    · show (mapInsert (mapErase s._map newKey) newKey (v, p)).length = _
      rw [hins]
      simp only [List.length_append, List.length_cons, List.length_nil]
      omega
  · -- newKey is fresh: the entry is re-registered under the new key
    have hne : newKey ≠ oldKey := by
      intro hc
      rw [hc, hold] at hfresh
      cases hfresh
    have hnewnone : mapLookup s._map newKey = none := by
      simpa [existsKey] using hfresh
    have hnewvec : newKey ∉ s._vector := by
      intro hmem
      have := hI4 newKey hmem
      rw [hnewnone] at this
      simp at this
    have herase_new : mapLookup (mapErase s._map oldKey) newKey = none := by
      rw [mapLookup_mapErase_ne _ _ _ hne]
      exact hnewnone
    have hins := mapInsert_of_lookup_none (mapErase s._map oldKey) newKey
      (v, p) herase_new
    have hlknew : mapLookup (mapInsert (mapErase s._map oldKey) newKey
        (v, p)) newKey = some (v, p) := mapLookup_mapInsert_self _ _ _
    have hlkother : ∀ k', k' ≠ oldKey → k' ≠ newKey →
        mapLookup (mapInsert (mapErase s._map oldKey) newKey (v, p)) k' =
          mapLookup s._map k' := by
      intro k' h1 h2
      rw [mapLookup_mapInsert_ne _ _ _ _ h2, mapLookup_mapErase_ne _ _ _ h1]
    have hvecne : ∀ i k', i ≠ p → s._vector[i]? = some k' → k' ≠ oldKey := by
      intro i k' hip hk' hc
      subst hc
      exact hip (List.getElem?_inj (lt_of_getElem?_some hk') hndv
        (hk'.trans hvecp.symm))
    refine ⟨?_, ?_, ?_, ?_, ?_, ?_⟩
    · -- keysNodup
      show ((mapInsert (mapErase s._map oldKey) newKey (v, p)).map
        Prod.fst).Nodup
      rw [hins, List.map_append, List.nodup_append]
      refine ⟨hnd_erase, by simp, ?_⟩
      intro a ha hb
      simp only [List.map_cons, List.map_nil, List.mem_singleton] at hb
      subst hb
      exact ((mapLookup_eq_none_iff _ _).mp herase_new) ha
    · -- I1
      show (mapInsert (mapErase s._map oldKey) newKey (v, p)).length =
        (s._vector.set p newKey).length
      rw [hins]
      simp only [List.length_append, List.length_cons, List.length_nil,
        List.length_set]
      omega
    · -- I2
      rw [I2_iff]
      intro i k' hk'
      show (mapLookup (mapInsert (mapErase s._map oldKey) newKey (v, p))
        k').map Prod.snd = some i
      rw [List.getElem?_set] at hk'
      by_cases hpi : p = i
      · rw [if_pos hpi, if_pos hp] at hk'
        injection hk' with hk'
        subst hk'
        rw [hlknew]
        simp [hpi]
      · rw [if_neg hpi] at hk'
        have h1 : k' ≠ oldKey := hvecne i k' (fun hc => hpi hc.symm) hk'
        have h2 : k' ≠ newKey := by
          intro hc
          exact hnewvec (hc ▸ mem_of_getElem?_some hk')
        rw [hlkother k' h1 h2]
        exact I2_iff.mp hI2 i k' hk'
    · -- I3
      rw [I3_iff]
      intro e he
      show (s._vector.set p newKey)[e.2.2]? = some e.1
      have he' : e ∈ mapErase s._map oldKey ++ [(newKey, v, p)] := hins ▸ he
      rcases List.mem_append.mp he' with hmem | hmem
      · have he1 : e.1 ≠ oldKey := by
          intro hc
          have : e.1 ∈ (mapErase s._map oldKey).map Prod.fst :=
            List.mem_map.mpr ⟨e, hmem, rfl⟩
          rw [hc] at this
          exact ((mapLookup_eq_none_iff _ _).mp herase_old) this
        have hm : e ∈ s._map := (mapErase_sublist _ _).subset hmem
        have hvec := I3_iff.mp hI3 _ hm
        have hposne : e.2.2 ≠ p := by
          intro hc
          rw [hc] at hvec
          rw [hvec] at hvecp
          injection hvecp with h
          exact he1 h
        rw [List.getElem?_set, if_neg (fun hc => hposne hc.symm)]
        exact hvec
      · simp only [List.mem_singleton] at hmem
        subst hmem
        rw [List.getElem?_set]
        simp [hp]
    · -- I4: Nodup
      exact List.Nodup.set hndv hnewvec
    · -- I4: membership
      intro k' hk'
      obtain ⟨i, hi⟩ := List.mem_iff_getElem?.mp hk'
      rw [List.getElem?_set] at hi
      by_cases hpi : p = i
      · rw [if_pos hpi, if_pos hp] at hi
        injection hi with hi
        subst hi
        rw [hlknew]
        rfl
      · rw [if_neg hpi] at hi
        have h1 : k' ≠ oldKey := hvecne i k' (fun hc => hpi hc.symm) hi
        have h2 : k' ≠ newKey := by
          intro hc
          exact hnewvec (hc ▸ mem_of_getElem?_some hi)
        rw [hlkother k' h1 h2]
        exact hI4 k' (mem_of_getElem?_some hi)

lemma changeKeyAt_valid {s : OrderedMap K V} {i : Int} (h : s.validIndex i)
    (newKey : K) :
    s.changeKeyAt i newKey =
      s.changeKey (s._vector.get ⟨i.toNat, by
        rcases h with ⟨h0, h1⟩; omega⟩) newKey := by
  unfold changeKeyAt
  rw [dif_pos h]

lemma changeKeyAt_invalid {s : OrderedMap K V} {i : Int}
    (h : ¬s.validIndex i) (newKey : K) :
    s.changeKeyAt i newKey = (s, some .indexOutOfRangeError) := by
  unfold changeKeyAt
  rw [dif_neg h]

/-- `changeKey` to a key that already exists elsewhere: the call itself
reports no error, but it shrinks the map by one while the vector keeps its
length and now holds `newKey` twice, so the next `size()` self-check
throws. -/
lemma changeKey_dup {s : OrderedMap K V} (hInv : s.Inv) {oldKey newKey : K}
    (hold : s.existsKey oldKey = true) (hnew : s.existsKey newKey = true)
    (hne : newKey ≠ oldKey) :
    (s.changeKey oldKey newKey).2 = none ∧
    (s.changeKey oldKey newKey).1._map.length + 1 =
      (s.changeKey oldKey newKey).1._vector.length ∧
    (s.changeKey oldKey newKey).1._vector.count newKey = 2 ∧
    ((s.changeKey oldKey newKey).1).size = .error .internalInvariantError := by
  obtain ⟨v, p, hvk⟩ := existsKey_lookup hold
  obtain ⟨hvecp, hp⟩ := pos_lt_of_lookup hInv.2.2.2.1 hvk
  obtain ⟨vn, pn, hvkn⟩ := existsKey_lookup hnew
  obtain ⟨hvecpn, hpn⟩ := pos_lt_of_lookup hInv.2.2.2.1 hvkn
  obtain ⟨hndm, hI1, hI2, hI3, hndv, hI4⟩ := hInv
  rw [changeKey_present hvk hp newKey]
  have hsome_old : (mapLookup s._map oldKey).isSome := by rw [hvk]; rfl
  have hlen_erase := length_mapErase_of_isSome _ _ hsome_old
  have herase_new : (mapLookup (mapErase s._map oldKey) newKey).isSome := by
    rw [mapLookup_mapErase_ne _ _ _ hne, hvkn]; rfl
  have hlen_ins := length_mapInsert_of_isSome (mapErase s._map oldKey)
    newKey (v, p) herase_new
  have hlen : (mapInsert (mapErase s._map oldKey) newKey (v, p)).length + 1 =
      s._vector.length := by
    rw [hlen_ins]
    omega
  have hlen_set : (s._vector.set p newKey).length = s._vector.length :=
    List.length_set s._vector p newKey
  have h_old_ne : oldKey ≠ newKey := fun hc => hne hc.symm
  have hgetp : s._vector[p] = oldKey := by
    have := List.getElem?_eq_getElem hp
    rw [hvecp] at this
    injection this with h
    exact h.symm
  have hsplit : s._vector =
      s._vector.take p ++ oldKey :: s._vector.drop (p + 1) := by
    rw [← hgetp, ← List.drop_eq_getElem_cons hp, List.take_append_drop]
  have hnewmem : newKey ∈ s._vector := mem_of_getElem?_some hvecpn
  have hcount1 : s._vector.count newKey = 1 :=
    List.count_eq_one_of_mem hndv hnewmem
  have hcountsplit : (s._vector.take p).count newKey +
      (s._vector.drop (p + 1)).count newKey = 1 := by
    rw [hsplit] at hcount1
    simp only [List.count_append, List.count_cons] at hcount1
    simp only [beq_iff_eq] at hcount1
    rw [if_neg h_old_ne] at hcount1
    omega
  refine ⟨rfl, by simp only [hlen_set]; exact hlen, ?_, ?_⟩
  · show (s._vector.set p newKey).count newKey = 2
    rw [List.set_eq_take_cons_drop _ hp]
    simp only [List.count_append, List.count_cons, beq_iff_eq]
    simp only [if_true, eq_self_iff_true]
    omega
  · show size _ = _
    unfold size
    rw [if_neg (by
      show ¬(mapInsert (mapErase s._map oldKey) newKey (v, p)).length =
        (s._vector.set p newKey).length
      rw [hlen_set]
      omega)]

/-! ## Accessor lemmas -/

lemma atKey_of_lookup {s : OrderedMap K V} {k : K} {v : V} {p : Nat}
    (h : mapLookup s._map k = some (v, p)) : s.atKey k = .ok v := by
  unfold atKey
  rw [h]

lemma atKey_not_exists {s : OrderedMap K V} {k : K}
    (h : s.existsKey k = false) : s.atKey k = .error .keyNotFoundError := by
  have hnone : mapLookup s._map k = none := by simpa [existsKey] using h
  unfold atKey
  rw [hnone]

lemma indexFor_of_lookup {s : OrderedMap K V} {k : K} {v : V} {p : Nat}
    (h : mapLookup s._map k = some (v, p)) : s.indexFor k = .ok p := by
  unfold indexFor
  rw [h]

lemma indexFor_not_exists {s : OrderedMap K V} {k : K}
    (h : s.existsKey k = false) :
    s.indexFor k = .error .keyNotFoundError := by
  have hnone : mapLookup s._map k = none := by simpa [existsKey] using h
  unfold indexFor
  rw [hnone]

lemma keyFor_of_getElem? {s : OrderedMap K V} {j : Nat} {k : K}
    (h : s._vector[j]? = some k) : s.keyFor (j : Int) = .ok k := by
  have hlt := lt_of_getElem?_some h
  have hv : s.validIndex (j : Int) := ⟨by omega, by exact_mod_cast hlt⟩
  unfold keyFor
  rw [dif_pos hv]
  show Except.ok (s._vector.get ⟨j, hlt⟩) = Except.ok k
  rw [List.get_eq_getElem]
  rw [(List.getElem?_eq_some_iff.mp h).2]

lemma keyFor_invalid {s : OrderedMap K V} {i : Int} (h : ¬s.validIndex i) :
    s.keyFor i = .error .indexOutOfRangeError := by
  unfold keyFor
  rw [dif_neg h]

lemma atIndex_of_getElem? {s : OrderedMap K V} {j : Nat} {k : K}
    (h : s._vector[j]? = some k) : s.atIndex (j : Int) = s.atKey k := by
  have hlt := lt_of_getElem?_some h
  have hv : s.validIndex (j : Int) := ⟨by omega, by exact_mod_cast hlt⟩
  unfold atIndex
  rw [dif_pos hv]
  show s.atKey (s._vector.get ⟨j, hlt⟩) = s.atKey k
  rw [List.get_eq_getElem, (List.getElem?_eq_some_iff.mp h).2]

lemma atIndex_invalid {s : OrderedMap K V} {i : Int} (h : ¬s.validIndex i) :
    s.atIndex i = .error .indexOutOfRangeError := by
  unfold atIndex
  rw [dif_neg h]

lemma eraseAt_invalid {s : OrderedMap K V} {i : Int} (h : ¬s.validIndex i) :
    s.eraseAt i = (s, some .indexOutOfRangeError) := by
  unfold eraseAt
  rw [dif_neg h]

lemma eraseKey_not_exists {s : OrderedMap K V} {k : K}
    (h : s.existsKey k = false) :
    s.eraseKey k = (s, some .keyNotFoundError) := by
  have hnone : mapLookup s._map k = none := by simpa [existsKey] using h
  unfold eraseKey
  rw [hnone]

lemma size_error_of_not_I1 {s : OrderedMap K V} (h : ¬s.I1) :
    s.size = .error .internalInvariantError := by
  unfold size
  rw [if_neg h]

lemma keyFor_indexFor {s : OrderedMap K V} (hI3 : s.I3) {k : K}
    (hk : s.existsKey k = true) :
    ∃ p, s.indexFor k = .ok p ∧ s.keyFor (p : Int) = .ok k := by
  obtain ⟨v, p, hvk⟩ := existsKey_lookup hk
  obtain ⟨hvecp, hp⟩ := pos_lt_of_lookup hI3 hvk
  exact ⟨p, indexFor_of_lookup hvk, keyFor_of_getElem? hvecp⟩

/-- The empty container satisfies the invariants. -/
lemma Inv_empty : (OrderedMap.mk [] [] : OrderedMap K V).Inv :=
  ⟨List.nodup_nil, rfl, by simp, by simp, List.nodup_nil, by simp⟩

/-! ## Sequences of insertions -/

/-- Folding a list of (key, value) pairs through `push_back`, as a client
calling it repeatedly (each call's returned reference is discarded, the
state is threaded). -/
def pushList (s : OrderedMap K V) : List (K × V) → OrderedMap K V
  | [] => s
  | (k, v) :: rest => pushList (s.push_back k v).1 rest

lemma pushList_spec : ∀ (l : List (K × V)) (s : OrderedMap K V), s.Inv →
    (l.map Prod.fst).Nodup →
    (∀ k ∈ l.map Prod.fst, s.existsKey k = false) →
    (pushList s l).Inv ∧
    (pushList s l)._vector = s._vector ++ l.map Prod.fst := by
  intro l
  induction l with
  | nil =>
    intro s hInv _ _
    exact ⟨hInv, by simp [pushList]⟩
  | cons kv rest ih =>
    obtain ⟨k, v⟩ := kv
    intro s hInv hnd hfresh
    simp only [List.map_cons, List.nodup_cons] at hnd
    have hfk : s.existsKey k = false := hfresh k (by simp)
    have hstate : (s.push_back k v).1 =
        ⟨s._map ++ [(k, v, s._vector.length)], s._vector ++ [k]⟩ := by
      rw [push_back_fresh v hInv.2.1 hfk]
    have hInv1 : ((s.push_back k v).1).Inv := push_back_Inv v hInv hfk
    have hfresh1 : ∀ k' ∈ rest.map Prod.fst,
        ((s.push_back k v).1).existsKey k' = false := by
      intro k' hk'
      rw [hstate]
      show (mapLookup (s._map ++ [(k, v, s._vector.length)]) k').isSome =
        false
      have hne : k ≠ k' := fun hc => hnd.1 (hc ▸ hk')
      have h0 : mapLookup s._map k' = none := by
        simpa [existsKey] using hfresh k' (List.mem_cons_of_mem _ hk')
      rw [mapLookup_append_of_none _ _ _ h0]
      simp [hne]
    have hrest := ih (s.push_back k v).1 hInv1 hnd.2 hfresh1
    have hunfold : pushList s ((k, v) :: rest) =
        pushList (s.push_back k v).1 rest := rfl
    rw [hunfold]
    refine ⟨hrest.1, ?_⟩
    rw [hrest.2, hstate]
    simp

/-! ## Existence persistence (for the exists/clear claims) -/

lemma push_back_fst_of_fresh {s : OrderedMap K V} {k : K} {v : V}
    (h : s.existsKey k = false) :
    (s.push_back k v).1 =
      ⟨mapInsert s._map k (v, s._vector.length), s._vector ++ [k]⟩ := by
  unfold push_back
  simp only [h, Bool.false_eq_true, if_false]
  split
  · rfl
  · split <;> rfl

lemma existsKey_push_back_self {s : OrderedMap K V} {k : K} (v : V)
    (h : s.existsKey k = false) :
    ((s.push_back k v).1).existsKey k = true := by
  rw [push_back_fst_of_fresh h]
  show (mapLookup (mapInsert s._map k (v, s._vector.length)) k).isSome = true
  rw [mapLookup_mapInsert_self]
  rfl

lemma existsKey_push_back {s : OrderedMap K V} {k k' : K} (v : V)
    (h : s.existsKey k = true) :
    ((s.push_back k' v).1).existsKey k = true := by
  by_cases h2 : s.existsKey k'
  · rw [push_back_of_exists v h2]
    exact h
  · rw [push_back_fst_of_fresh (Bool.not_eq_true _ ▸ h2)]
    show (mapLookup (mapInsert s._map k' (v, s._vector.length)) k).isSome =
      true
    exact mapLookup_mapInsert_isSome _ _ _ _ h

lemma existsKey_changeKey_other {s : OrderedMap K V} {k oldKey newKey : K}
    (hk : s.existsKey k = true) (hne : oldKey ≠ k) :
    ((s.changeKey oldKey newKey).1).existsKey k = true := by
  rcases hl : mapLookup s._map oldKey with _ | t
  · unfold changeKey
    rw [hl]
    exact hk
  · unfold changeKey
    rw [hl]
    dsimp only
    have hm2 : (mapLookup (mapInsert (mapErase s._map oldKey) newKey t)
        k).isSome = true := by
      by_cases hkn : k = newKey
      · subst hkn
        rw [mapLookup_mapInsert_self]
        rfl
      · rw [mapLookup_mapInsert_ne _ _ _ _ hkn,
          mapLookup_mapErase_ne _ _ _ (fun hc => hne hc.symm)]
        exact hk
    split
    · exact hm2
    · exact hm2

lemma existsKey_changeKey_same {s : OrderedMap K V} {k : K}
    (hk : s.existsKey k = true) :
    ((s.changeKey k k).1).existsKey k = true := by
  obtain ⟨v, p, hvk⟩ := existsKey_lookup hk
  unfold changeKey
  rw [hvk]
  dsimp only
  have hm2 : (mapLookup (mapInsert (mapErase s._map k) k (v, p)) k).isSome =
      true := by
    rw [mapLookup_mapInsert_self]
    rfl
  split
  · exact hm2
  · exact hm2

lemma existsKey_changeKey_away {s : OrderedMap K V} (hndm : s.keysNodup)
    {k newKey : K} (hk : s.existsKey k = true) (hne : newKey ≠ k) :
    ((s.changeKey k newKey).1).existsKey k = false := by
  obtain ⟨v, p, hvk⟩ := existsKey_lookup hk
  unfold changeKey
  rw [hvk]
  dsimp only
  have hm2 : mapLookup (mapInsert (mapErase s._map k) newKey (v, p)) k =
      none := by
    rw [mapLookup_mapInsert_ne _ _ _ _ (fun hc => hne hc.symm),
      mapLookup_mapErase_self _ _ hndm]
  have hm2' : (mapLookup (mapInsert (mapErase s._map k) newKey (v, p))
      k).isSome = false := by rw [hm2]; rfl
  split
  · exact hm2'
  · exact hm2'

lemma existsKey_eraseKey_other {s : OrderedMap K V} {k k'' : K}
    (hk : s.existsKey k = true) (hne : k'' ≠ k) :
    ((s.eraseKey k'').1).existsKey k = true := by
  rcases hl : mapLookup s._map k'' with _ | t
  · unfold eraseKey
    rw [hl]
    exact hk
  · unfold eraseKey
    rw [hl]
    dsimp only
    have hm : (mapLookup ((s.fastErase (t.2 : Int) k'')._map) k).isSome =
        true := by
      show (mapLookup (updateFrom (mapErase s._map k'')
        (s._vector.eraseIdx (t.2 : Int).toNat) 0) k).isSome = true
      apply updateFrom_lookup_isSome
      rw [mapLookup_mapErase_ne _ _ _ (fun hc => hne hc.symm)]
      exact hk
    split
    · exact hm
    · exact hm

lemma eraseKey_of_exists {s : OrderedMap K V} (hInv : s.Inv) {k : K}
    (hk : s.existsKey k = true) :
    (s.eraseKey k).2 = none ∧ ((s.eraseKey k).1).Inv ∧
    ((s.eraseKey k).1).existsKey k = false := by
  obtain ⟨v, p, hvk⟩ := existsKey_lookup hk
  obtain ⟨hvecp, hp⟩ := pos_lt_of_lookup hInv.2.2.2.1 hvk
  have hget : s._vector.get ⟨p, hp⟩ = k := by
    rw [List.get_eq_getElem]
    exact (List.getElem?_eq_some_iff.mp hvecp).2
  rw [← hget, eraseKey_valid hInv hp]
  refine ⟨rfl, (fastErase_valid hInv hp).1, ?_⟩
  show (mapLookup (s.fastErase (p : Int) (s._vector.get ⟨p, hp⟩))._map
    (s._vector.get ⟨p, hp⟩)).isSome = false
  rw [(fastErase_valid hInv hp).2.2.2.1]
  rfl

lemma eraseAt_of_valid {s : OrderedMap K V} (hInv : s.Inv) {i : Int}
    (hv : s.validIndex i) :
    (s.eraseAt i).2 = none ∧ ((s.eraseAt i).1).Inv := by
  have hp : i.toNat < s._vector.length := by
    rcases hv with ⟨h0, h1⟩
    omega
  have hi : (i.toNat : Int) = i := Int.toNat_of_nonneg hv.1
  rw [← hi, eraseAt_valid hInv hp]
  exact ⟨rfl, (fastErase_valid hInv hp).1⟩

lemma existsKey_eraseAt_other {s : OrderedMap K V} {k : K} {i : Int}
    (hk : s.existsKey k = true)
    (hne : ∀ k', s.keyFor i = .ok k' → k' ≠ k) :
    ((s.eraseAt i).1).existsKey k = true := by
  by_cases hv : s.validIndex i
  · have hkf : s.keyFor i = .ok (s._vector.get ⟨i.toNat, by
        rcases hv with ⟨h0, h1⟩; omega⟩) := by
      unfold keyFor
      rw [dif_pos hv]
    have hne' := hne _ hkf
    unfold eraseAt
    rw [dif_pos hv]
    dsimp only
    have hm : (mapLookup ((s.fastErase i (s._vector.get ⟨i.toNat, by
        rcases hv with ⟨h0, h1⟩; omega⟩))._map) k).isSome = true := by
      show (mapLookup (updateFrom (mapErase s._map _)
        (s._vector.eraseIdx i.toNat) 0) k).isSome = true
      apply updateFrom_lookup_isSome
      rw [mapLookup_mapErase_ne _ _ _ (fun hc => (hne' hc.symm).elim)]
      exact hk
    split
    · exact hm
    · exact hm
  · rw [eraseAt_invalid hv]
    exact hk

lemma existsKey_eraseAt_self {s : OrderedMap K V} (hInv : s.Inv) {i : Int}
    {k : K} (hkf : s.keyFor i = .ok k) :
    ((s.eraseAt i).1).existsKey k = false := by
  by_cases hv : s.validIndex i
  · have hp : i.toNat < s._vector.length := by
      rcases hv with ⟨h0, h1⟩
      omega
    have hget : s._vector.get ⟨i.toNat, hp⟩ = k := by
      have : s.keyFor i = .ok (s._vector.get ⟨i.toNat, hp⟩) := by
        unfold keyFor
        rw [dif_pos hv]
      rw [this] at hkf
      injection hkf
    have hi : (i.toNat : Int) = i := Int.toNat_of_nonneg hv.1
    rw [← hi, eraseAt_valid hInv hp, ← hget]
    show (mapLookup (s.fastErase ((i.toNat : Nat) : Int)
      (s._vector.get ⟨i.toNat, hp⟩))._map
      (s._vector.get ⟨i.toNat, hp⟩)).isSome = false
    rw [(fastErase_valid hInv hp).2.2.2.1]
    rfl
  · rw [keyFor_invalid hv] at hkf
    cases hkf

lemma clear_spec (s : OrderedMap K V) :
    (s.clear).size = .ok 0 ∧ ∀ k, (s.clear).existsKey k = false :=
  ⟨rfl, fun _ => rfl⟩

end OrderedMap

end Msa

namespace Msa

open OrderedMap

variable {K V : Type} [DecidableEq K] [Inhabited V]

/-- C1, counterexample: the claim says *every* public operation on a state
satisfying I1—I4 either produces a state satisfying I1—I4 or fails with an
error leaving the state unchanged.  `changeKey` to a key that already
exists elsewhere violates this: on the valid two-entry container below,
`changeKey 0 1` reports no error, yet the resulting state is mutated and
violates the invariants (the map lost an entry, the vector holds key `1`
twice). -/
theorem counterexample_C1 :
    (OrderedMap.mk [(0, 10, 0), (1, 11, 1)] [0, 1] :
      OrderedMap Nat Nat).Inv ∧
    ((OrderedMap.mk [(0, 10, 0), (1, 11, 1)] [0, 1] :
      OrderedMap Nat Nat).changeKey 0 1).2 = none ∧
    ¬(((OrderedMap.mk [(0, 10, 0), (1, 11, 1)] [0, 1] :
      OrderedMap Nat Nat).changeKey 0 1).1).Inv ∧
    ((OrderedMap.mk [(0, 10, 0), (1, 11, 1)] [0, 1] :
      OrderedMap Nat Nat).changeKey 0 1).1 ≠
      OrderedMap.mk [(0, 10, 0), (1, 11, 1)] [0, 1] := by
  decide

/-- C1 (amended): on a state satisfying I1—I4, every mutating public
operation — `push_back`, `changeKey` (by key or by index), `erase` (by key
or by index) and `clear` — either produces a state satisfying I1—I4 or
fails with an error leaving the state unchanged, **except** `changeKey` to
a `newKey` that already exists and differs from the renamed entry's key
(that case corrupts the invariants; the accessors `size`, `at`, `keyFor`,
`indexFor` and `exists` return values without any state, so they cannot
mutate). -/
theorem spec_C1 (s : OrderedMap K V) (hInv : s.Inv) :
    (∀ k v, s.existsKey k = true →
      s.push_back k v = (s, .error .duplicateKeyError)) ∧
    (∀ k v, s.existsKey k = false →
      (s.push_back k v).2 = .ok v ∧ ((s.push_back k v).1).Inv) ∧
    (∀ oldKey newKey, s.existsKey oldKey = false →
      s.changeKey oldKey newKey = (s, some .keyNotFoundError)) ∧
    (∀ oldKey newKey, s.existsKey oldKey = true →
      newKey = oldKey ∨ s.existsKey newKey = false →
      (s.changeKey oldKey newKey).2 = none ∧
      ((s.changeKey oldKey newKey).1).Inv) ∧
    (∀ (i : Int) newKey, ¬s.validIndex i →
      s.changeKeyAt i newKey = (s, some .indexOutOfRangeError)) ∧
    (∀ (i : Int) newKey k, s.validIndex i → s.keyFor i = .ok k →
      newKey = k ∨ s.existsKey newKey = false →
      (s.changeKeyAt i newKey).2 = none ∧
      ((s.changeKeyAt i newKey).1).Inv) ∧
    (∀ i : Int, ¬s.validIndex i →
      s.eraseAt i = (s, some .indexOutOfRangeError)) ∧
    (∀ i : Int, s.validIndex i →
      (s.eraseAt i).2 = none ∧ ((s.eraseAt i).1).Inv) ∧
    (∀ k, s.existsKey k = false →
      s.eraseKey k = (s, some .keyNotFoundError)) ∧
    (∀ k, s.existsKey k = true →
      (s.eraseKey k).2 = none ∧ ((s.eraseKey k).1).Inv) ∧
    ((s.clear).Inv) := by
  refine ⟨?_, ?_, ?_, ?_, ?_, ?_, ?_, ?_, ?_, ?_, ?_⟩
  · intro k v h
    exact push_back_of_exists v h
  · intro k v h
    refine ⟨?_, push_back_Inv v hInv h⟩
    rw [push_back_fresh v hInv.2.1 h]
  · intro oldKey newKey h
    exact changeKey_not_exists newKey h
  · intro oldKey newKey hold hnew
    exact changeKey_Inv hInv hold hnew
  · intro i newKey h
    exact changeKeyAt_invalid h newKey
  · intro i newKey k hv hkf hnew
    have hget : s._vector.get ⟨i.toNat, by rcases hv with ⟨h0, h1⟩; omega⟩
        = k := by
      have : s.keyFor i = .ok (s._vector.get ⟨i.toNat, by
          rcases hv with ⟨h0, h1⟩; omega⟩) := by
        unfold OrderedMap.keyFor
        rw [dif_pos hv]
      rw [this] at hkf
      injection hkf
    rw [changeKeyAt_valid hv newKey]
    apply changeKey_Inv hInv
    · show (mapLookup s._map _).isSome = true
      rw [hget]
      have := lookup_get_pos hInv (show i.toNat < s._vector.length by
        rcases hv with ⟨h0, h1⟩; omega)
      rw [hget] at this
      obtain ⟨vk, hvk⟩ := this
      rw [hvk]
      rfl
    · rw [hget]
      exact hnew
  · intro i h
    exact eraseAt_invalid h
  · intro i hv
    exact eraseAt_of_valid hInv hv
  · intro k h
    exact eraseKey_not_exists h
  · intro k h
    exact ⟨(eraseKey_of_exists hInv h).1, (eraseKey_of_exists hInv h).2.1⟩
  · exact Inv_empty

theorem spec_C1_witness :
    ((OrderedMap.mk [(0, 10, 0), (1, 11, 1)] [0, 1] :
        OrderedMap Nat Nat).eraseAt 0).2 = none ∧
    (((OrderedMap.mk [(0, 10, 0), (1, 11, 1)] [0, 1] :
        OrderedMap Nat Nat).eraseAt 0).1).Inv :=
  (spec_C1 (OrderedMap.mk [(0, 10, 0), (1, 11, 1)] [0, 1])
    (by decide)).2.2.2.2.2.2.2.1 0 (by decide)

/-- C2: erasing the entry at a valid position `p` (by index, or by its key)
removes it from both structures, shifts every later entry one position
down, leaves earlier entries untouched (same key, value and position), and
makes `size()` report one less. -/
theorem spec_C2 (s : OrderedMap K V) (hInv : s.Inv) (p : Nat)
    (hp : p < s._vector.length) :
    (s.eraseAt (p : Int)).2 = none ∧
    (∀ k, s._vector[p]? = some k → s.eraseKey k = s.eraseAt (p : Int)) ∧
    ((s.eraseAt (p : Int)).1).size = .ok (s._vector.length - 1) ∧
    (∀ k, s._vector[p]? = some k →
      ((s.eraseAt (p : Int)).1).existsKey k = false ∧
      k ∉ ((s.eraseAt (p : Int)).1)._vector) ∧
    (∀ q k, q < p → s._vector[q]? = some k →
      ((s.eraseAt (p : Int)).1).keyFor (q : Int) = .ok k ∧
      ((s.eraseAt (p : Int)).1).indexFor k = .ok q ∧
      ((s.eraseAt (p : Int)).1).atKey k = s.atKey k) ∧
    (∀ q k, p < q → s._vector[q]? = some k →
      ((s.eraseAt (p : Int)).1).keyFor ((q - 1 : Nat) : Int) = .ok k ∧
      ((s.eraseAt (p : Int)).1).indexFor k = .ok (q - 1) ∧
      ((s.eraseAt (p : Int)).1).atKey k = s.atKey k) := by
  have hfe := fastErase_valid hInv hp
  have hget : ∀ {j : Nat} (hj : j < s._vector.length) {k : K},
      s._vector[j]? = some k → s._vector.get ⟨j, hj⟩ = k := by
    intro j hj k hk
    rw [List.get_eq_getElem]
    exact (List.getElem?_eq_some_iff.mp hk).2
  rw [eraseAt_valid hInv hp]
  refine ⟨rfl, ?_, ?_, ?_, ?_, ?_⟩
  · intro k hk
    rw [← hget hp hk]
    rw [eraseKey_valid hInv hp]
  · rw [size_eq_ok_of_I1 hfe.1.2.1, hfe.2.1]
    rw [List.length_eraseIdx, if_pos hp]
  · intro k hk
    constructor
    · show (mapLookup (s.fastErase (p : Int)
        (s._vector.get ⟨p, hp⟩))._map k).isSome = false
      rw [← hget hp hk, hfe.2.2.2.1]
      rfl
    · rw [hfe.2.1, ← hget hp hk]
      exact not_mem_eraseIdx_self hInv.2.2.2.2.1 hp
  · intro q k hq hk
    have hqlen : q < s._vector.length := lt_of_getElem?_some hk
    have hq' : (s.fastErase (p : Int)
        (s._vector.get ⟨p, hp⟩))._vector[q]? = some k := by
      rw [hfe.2.1, List.getElem?_eraseIdx_of_lt _ _ _ hq]
      exact hk
    obtain ⟨vq, hvq⟩ := lookup_get_pos hInv hqlen
    rw [hget hqlen hk] at hvq
    have hlk' : mapLookup (s.fastErase (p : Int)
        (s._vector.get ⟨p, hp⟩))._map k = some (vq, q) := by
      have := hfe.2.2.2.2 q hqlen (by omega)
      rw [hget hqlen hk] at this
      rw [this, hvq]
      simp [hq]
    exact ⟨keyFor_of_getElem? hq', indexFor_of_lookup hlk',
      by rw [atKey_of_lookup hlk', atKey_of_lookup hvq]⟩
  · intro q k hq hk
    have hqlen : q < s._vector.length := lt_of_getElem?_some hk
    have hq1 : q - 1 + 1 = q := by omega
    have hq' : (s.fastErase (p : Int)
        (s._vector.get ⟨p, hp⟩))._vector[q - 1]? = some k := by
      rw [hfe.2.1, List.getElem?_eraseIdx_of_ge _ _ _ (by omega), hq1]
      exact hk
    obtain ⟨vq, hvq⟩ := lookup_get_pos hInv hqlen
    rw [hget hqlen hk] at hvq
    have hlk' : mapLookup (s.fastErase (p : Int)
        (s._vector.get ⟨p, hp⟩))._map k = some (vq, q - 1) := by
      have := hfe.2.2.2.2 q hqlen (by omega)
      rw [hget hqlen hk] at this
      rw [this, hvq]
      simp [show ¬q < p by omega]
    exact ⟨keyFor_of_getElem? hq', indexFor_of_lookup hlk',
      by rw [atKey_of_lookup hlk', atKey_of_lookup hvq]⟩

theorem spec_C2_witness :
    ((OrderedMap.mk [(0, 10, 0), (1, 11, 1), (2, 12, 2)] [0, 1, 2] :
        OrderedMap Nat Nat).eraseAt 1).2 = none ∧
    (((OrderedMap.mk [(0, 10, 0), (1, 11, 1), (2, 12, 2)] [0, 1, 2] :
        OrderedMap Nat Nat).eraseAt 1).1).indexFor 2 = .ok 1 := by
  have h := spec_C2 (OrderedMap.mk [(0, 10, 0), (1, 11, 1), (2, 12, 2)]
    [0, 1, 2]) (by decide) 1 (by decide)
  exact ⟨h.1, (h.2.2.2.2.2 2 2 (by decide) (by decide)).2.1⟩

/-- C3: renaming a present key preserves the entry's value and position:
the rename reports no error, `at(newKey)` afterwards returns what
`at(oldKey)` returned before, `indexFor(newKey)` afterwards returns what
`indexFor(oldKey)` returned before, the order sequence changes only at
that position (it is relabeled to `newKey`), and every other key's map
binding is untouched. -/
theorem spec_C3 (s : OrderedMap K V) (hInv : s.Inv) (oldKey newKey : K)
    (hold : s.existsKey oldKey = true) :
    (s.changeKey oldKey newKey).2 = none ∧
    ∃ v p, s.atKey oldKey = .ok v ∧ s.indexFor oldKey = .ok p ∧
      ((s.changeKey oldKey newKey).1).atKey newKey = .ok v ∧
      ((s.changeKey oldKey newKey).1).indexFor newKey = .ok p ∧
      ((s.changeKey oldKey newKey).1)._vector = s._vector.set p newKey ∧
      ∀ k', k' ≠ oldKey → k' ≠ newKey →
        mapLookup ((s.changeKey oldKey newKey).1)._map k' =
          mapLookup s._map k' := by
  obtain ⟨v, p, hvk⟩ := existsKey_lookup hold
  obtain ⟨hvecp, hp⟩ := pos_lt_of_lookup hInv.2.2.2.1 hvk
  rw [changeKey_present hvk hp newKey]
  refine ⟨rfl, v, p, atKey_of_lookup hvk, indexFor_of_lookup hvk, ?_, ?_,
    rfl, ?_⟩
  · exact atKey_of_lookup (mapLookup_mapInsert_self _ _ _)
  · exact indexFor_of_lookup (mapLookup_mapInsert_self _ _ _)
  · intro k' h1 h2
    show mapLookup (mapInsert (mapErase s._map oldKey) newKey (v, p)) k' = _
    rw [mapLookup_mapInsert_ne _ _ _ _ h2, mapLookup_mapErase_ne _ _ _ h1]

theorem spec_C3_witness :
    ((OrderedMap.mk [(0, 10, 0), (1, 11, 1)] [0, 1] :
        OrderedMap Nat Nat).changeKey 0 7).2 = none :=
  (spec_C3 (OrderedMap.mk [(0, 10, 0), (1, 11, 1)] [0, 1]) (by decide)
    0 7 (by decide)).1

/-- C4: `push_back` with a key that already exists fails with the
duplicate-key error and performs no mutation at all: the returned state is
the input state itself. -/
theorem spec_C4 (s : OrderedMap K V) (k : K) (v : V)
    (h : s.existsKey k = true) :
    s.push_back k v = (s, .error .duplicateKeyError) :=
  push_back_of_exists v h

theorem spec_C4_witness :
    ((OrderedMap.mk [(3, 30, 0)] [3] : OrderedMap Nat Nat).push_back 3 9) =
      (OrderedMap.mk [(3, 30, 0)] [3], .error .duplicateKeyError) :=
  spec_C4 (OrderedMap.mk [(3, 30, 0)] [3]) 3 9 (by decide)

/-- C5: inserting a list of pairwise-distinct keys into the empty
container makes `size()` report the number of insertions, and
`keyFor(indexFor(k))` returns `k` for every inserted key `k`. -/
theorem spec_C5 (l : List (K × V)) (hnd : (l.map Prod.fst).Nodup) :
    (pushList (OrderedMap.mk [] []) l).size = .ok l.length ∧
    ∀ kv ∈ l, ((pushList (OrderedMap.mk [] []) l).indexFor kv.1).bind
        (fun p => (pushList (OrderedMap.mk [] []) l).keyFor (p : Int)) =
      .ok kv.1 := by
  have h := pushList_spec l (OrderedMap.mk [] []) Inv_empty hnd
    (fun _ _ => rfl)
  have hvec : (pushList (OrderedMap.mk [] [] : OrderedMap K V) l)._vector =
      l.map Prod.fst := by
    rw [h.2]
    rfl
  constructor
  · rw [size_eq_ok_of_I1 h.1.2.1, hvec]
    simp
  · intro kv hkv
    have hmem : kv.1 ∈ (pushList (OrderedMap.mk [] [] :
        OrderedMap K V) l)._vector := by
      rw [hvec]
      exact List.mem_map.mpr ⟨kv, hkv, rfl⟩
    have hex : (pushList (OrderedMap.mk [] [] :
        OrderedMap K V) l).existsKey kv.1 = true :=
      h.1.2.2.2.2.2 kv.1 hmem
    obtain ⟨p, hip, hkp⟩ := keyFor_indexFor h.1.2.2.2.1 hex
    rw [hip]
    exact hkp

theorem spec_C5_witness :
    (pushList (OrderedMap.mk [] [] : OrderedMap Nat Nat)
      [(4, 40), (7, 70)]).size = .ok 2 :=
  (spec_C5 [(4, 40), (7, 70)] (by decide)).1

/-- C6: every index-addressed operation fails with the index error on an
out-of-range index, every key-addressed operation fails with the
key-not-found error on an absent key, and in every such failing call the
returned state is the input state itself. -/
theorem spec_C6 (s : OrderedMap K V) (i : Int) (k newKey : K)
    (hi : ¬s.validIndex i) (hk : s.existsKey k = false) :
    s.atIndex i = .error .indexOutOfRangeError ∧
    s.keyFor i = .error .indexOutOfRangeError ∧
    s.changeKeyAt i newKey = (s, some .indexOutOfRangeError) ∧
    s.eraseAt i = (s, some .indexOutOfRangeError) ∧
    s.atKey k = .error .keyNotFoundError ∧
    s.indexFor k = .error .keyNotFoundError ∧
    s.changeKey k newKey = (s, some .keyNotFoundError) ∧
    s.eraseKey k = (s, some .keyNotFoundError) :=
  ⟨atIndex_invalid hi, keyFor_invalid hi, changeKeyAt_invalid hi newKey,
    eraseAt_invalid hi, atKey_not_exists hk, indexFor_not_exists hk,
    changeKey_not_exists newKey hk, eraseKey_not_exists hk⟩

theorem spec_C6_witness :
    (OrderedMap.mk [(0, 10, 0)] [0] : OrderedMap Nat Nat).atIndex (-1) =
      .error .indexOutOfRangeError ∧
    (OrderedMap.mk [(0, 10, 0)] [0] : OrderedMap Nat Nat).eraseKey 99 =
      (OrderedMap.mk [(0, 10, 0)] [0], some .keyNotFoundError) := by
  have h := spec_C6 (OrderedMap.mk [(0, 10, 0)] [0] : OrderedMap Nat Nat)
    (-1) 99 5 (by decide) (by decide)
  exact ⟨h.1, h.2.2.2.2.2.2.2⟩

/-- C7, counterexample: the claim says `exists(k)` stays true after a
successful insertion of `k` *until k is erased or the container cleared*.
Renaming `k` also makes it false: after inserting key `0` into the empty
container, `changeKey 0 1` — which is neither an erase nor a clear —
leaves `exists 0 = false`. -/
theorem counterexample_C7 :
    OrderedMap.existsKey
      ((OrderedMap.mk [] [] : OrderedMap Nat Nat).push_back 0 5).1 0 =
      true ∧
    OrderedMap.existsKey
      (OrderedMap.changeKey
        ((OrderedMap.mk [] [] : OrderedMap Nat Nat).push_back 0 5).1 0 1).1
      0 = false := by
  decide

/-- C7 (amended): `exists` never fails (it is a total boolean in the
model); `exists(k)` is true immediately after a successful insertion of
`k` and stays true across insertions of other keys, renames that do not
rename `k` away (including the identity rename of `k`), and erasures of
other keys; it is false immediately after `k` is erased (by key or by
index), renamed away, or the container cleared; and after `clear()`,
`size()` is 0 and `exists` is false for every key. -/
theorem spec_C7 (s : OrderedMap K V) (k : K) :
    (∀ v : V, s.existsKey k = false →
      ((s.push_back k v).1).existsKey k = true) ∧
    (∀ (k' : K) (v : V), s.existsKey k = true →
      ((s.push_back k' v).1).existsKey k = true) ∧
    (∀ oldKey newKey, s.existsKey k = true → oldKey ≠ k →
      ((s.changeKey oldKey newKey).1).existsKey k = true) ∧
    (s.existsKey k = true → ((s.changeKey k k).1).existsKey k = true) ∧
    (s.Inv → ∀ newKey, s.existsKey k = true → newKey ≠ k →
      ((s.changeKey k newKey).1).existsKey k = false) ∧
    (∀ k'', s.existsKey k = true → k'' ≠ k →
      ((s.eraseKey k'').1).existsKey k = true) ∧
    (∀ i : Int, s.existsKey k = true →
      (∀ k', s.keyFor i = .ok k' → k' ≠ k) →
      ((s.eraseAt i).1).existsKey k = true) ∧
    (s.Inv → s.existsKey k = true →
      ((s.eraseKey k).1).existsKey k = false) ∧
    (s.Inv → ∀ i : Int, s.keyFor i = .ok k →
      ((s.eraseAt i).1).existsKey k = false) ∧
    ((s.clear).size = .ok 0 ∧ ∀ k', (s.clear).existsKey k' = false) := by
  refine ⟨?_, ?_, ?_, ?_, ?_, ?_, ?_, ?_, ?_, clear_spec s⟩
  · intro v h
    exact existsKey_push_back_self v h
  · intro k' v h
    exact existsKey_push_back v h
  · intro oldKey newKey h hne
    exact existsKey_changeKey_other h hne
  · intro h
    exact existsKey_changeKey_same h
  · intro hInv newKey h hne
    exact existsKey_changeKey_away hInv.1 h hne
  · intro k'' h hne
    exact existsKey_eraseKey_other h hne
  · intro i h hne
    exact existsKey_eraseAt_other h hne
  · intro hInv h
    exact (eraseKey_of_exists hInv h).2.2
  · intro hInv i hkf
    exact existsKey_eraseAt_self hInv hkf

theorem spec_C7_witness :
    OrderedMap.existsKey
      ((OrderedMap.mk [(0, 10, 0)] [0] : OrderedMap Nat Nat).push_back
        1 11).1 0 = true :=
  (spec_C7 (OrderedMap.mk [(0, 10, 0)] [0] : OrderedMap Nat Nat) 0).2.1
    1 11 (by decide)

/-- C8: `size()` returns the entry count (the common length of the two
structures) when they agree in size, and fails with the unrecoverable
internal-invariant error whenever they disagree — it never repairs
anything (it takes no state and returns none). -/
theorem spec_C8 (s : OrderedMap K V) :
    (s._map.length = s._vector.length → s.size = .ok s._vector.length) ∧
    (s._map.length ≠ s._vector.length →
      s.size = .error .internalInvariantError) :=
  ⟨fun h => size_eq_ok_of_I1 h, fun h => size_error_of_not_I1 h⟩

theorem spec_C8_witness :
    (OrderedMap.mk [(0, 10, 0)] [0] : OrderedMap Nat Nat).size = .ok 1 ∧
    (OrderedMap.mk [(0, 10, 0)] [0, 1] : OrderedMap Nat Nat).size =
      .error .internalInvariantError :=
  ⟨(spec_C8 (OrderedMap.mk [(0, 10, 0)] [0])).1 (by decide),
   (spec_C8 (OrderedMap.mk [(0, 10, 0)] [0, 1])).2 (by decide)⟩

/-- C9: on a state satisfying the invariants, erasing a valid index `i`,
erasing the key stored at `i`, and the unchecked `fastErase(i, key)` all
produce the same resulting state (and the two checked erases report no
error). -/
theorem spec_C9 (s : OrderedMap K V) (hInv : s.Inv) (i : Int) (k : K)
    (hv : s.validIndex i) (hk : s.keyFor i = .ok k) :
    s.eraseAt i = s.eraseKey k ∧ s.eraseAt i = (s.fastErase i k, none) := by
  have hp : i.toNat < s._vector.length := by
    rcases hv with ⟨h0, h1⟩
    omega
  have hget : s._vector.get ⟨i.toNat, hp⟩ = k := by
    have : s.keyFor i = .ok (s._vector.get ⟨i.toNat, hp⟩) := by
      unfold OrderedMap.keyFor
      rw [dif_pos hv]
    rw [this] at hk
    injection hk
  have hi : (i.toNat : Int) = i := Int.toNat_of_nonneg hv.1
  subst hget
  have hq := eraseAt_valid hInv hp
  rw [hi] at hq
  have hqk := eraseKey_valid hInv hp
  rw [hi] at hqk
  exact ⟨hq.trans hqk.symm, hq⟩

theorem spec_C9_witness :
    (OrderedMap.mk [(0, 10, 0), (1, 11, 1)] [0, 1] :
        OrderedMap Nat Nat).eraseAt 1 =
      (OrderedMap.mk [(0, 10, 0), (1, 11, 1)] [0, 1] :
        OrderedMap Nat Nat).eraseKey 1 :=
  (spec_C9 (OrderedMap.mk [(0, 10, 0), (1, 11, 1)] [0, 1]) (by decide)
    1 1 (by decide) (by rfl)).1

/-- C10: on a state satisfying the invariants that contains two distinct
keys, renaming `oldKey` to the already-present `newKey` reports no error,
but leaves the map one entry shorter than the vector, with `newKey`
occurring twice in the vector, so the next `size()` call fails with the
internal-invariant error. -/
theorem spec_C10 (s : OrderedMap K V) (hInv : s.Inv) (oldKey newKey : K)
    (hold : s.existsKey oldKey = true) (hnew : s.existsKey newKey = true)
    (hne : newKey ≠ oldKey) :
    (s.changeKey oldKey newKey).2 = none ∧
    (s.changeKey oldKey newKey).1._map.length + 1 =
      (s.changeKey oldKey newKey).1._vector.length ∧
    (s.changeKey oldKey newKey).1._vector.count newKey = 2 ∧
    ((s.changeKey oldKey newKey).1).size = .error .internalInvariantError :=
  changeKey_dup hInv hold hnew hne

theorem spec_C10_witness :
    (((OrderedMap.mk [(0, 10, 0), (1, 11, 1)] [0, 1] :
      OrderedMap Nat Nat).changeKey 0 1).1).size =
      .error .internalInvariantError :=
  (spec_C10 (OrderedMap.mk [(0, 10, 0), (1, 11, 1)] [0, 1]) (by decide)
    0 1 (by decide) (by decide) (by decide)).2.2.2

end Msa
